import Mathlib

/-!
Shallow embedding of the st3v/glager repository: a log-sequence matcher for
lager-style JSON log records, plus the lager logger it consumes.

The repository holds two variants of the matcher package:
* `src/glager.go` — the legacy variant (namespace `Legacy` below);
* `src/unnamed/part_002` — the newer variant with `TestLogger`, the three-way
  input type switch and the nil-error guard (namespace `Glager` below).
`src/unnamed/part_000` is the lager logger itself (namespace `Lager` below).
-/

/-- Decoded JSON-style value stored in a record's `data` map (Go
`interface\x7b\x7d` inside `lager.Data`).  Nested arrays/objects are elided:
no matcher logic inspects value structure beyond its serialized form. -/
inductive JVal where
  | str (s : String)
  | num (n : Int)
  | bool (b : Bool)
  | null
deriving DecidableEq

/-- Canonical serialization of a value, mirroring `json.Marshal` on the
decoded value (used by the newer variant to compare data values). -/
def jserialize : JVal → String
  | .str s => "\"" ++ s ++ "\""
  | .num n => toString n
  | .bool b => if b then "true" else "false"
  | .null => "null"

/-- Go type name of the dynamic value, as `%T` renders it. -/
def goTypeName : JVal → String
  | .str _ => "string"
  | .num _ => "int"
  | .bool _ => "bool"
  | .null => "<nil>"

/-- Go default rendering of the value, as `%v` renders it. -/
def goValueString : JVal → String
  | .str s => s
  | .num n => toString n
  | .bool b => if b then "true" else "false"
  | .null => "<nil>"

/-- A `lager.Data` map (Go `map[string]interface\x7b\x7d`), modelled as an
association list with unique keys maintained by `mapInsert`. -/
abbrev LogData := List (String × JVal)

/-- Map update: replaces the binding of an existing key in place, otherwise
appends, mirroring Go map assignment. -/
def mapInsert : LogData → String → JVal → LogData
  | [], k, v => [(k, v)]
  | (k2, v2) :: rest, k, v =>
    if k2 = k then (k, v) :: rest else (k2, v2) :: mapInsert rest k v

/-- Map lookup, mirroring Go `m[k]` with its `found` flag. -/
def mapLookup : LogData → String → Option JVal
  | [], _ => none
  | (k2, v) :: rest, k => if k2 = k then some v else mapLookup rest k

/-- Key uniqueness of an association list; Go maps satisfy this by
construction, association lists only when built through `mapInsert`. -/
def uniqueKeys : LogData → Bool
  | [] => true
  | (k, _) :: rest => decide (mapLookup rest k = none) && uniqueKeys rest

/-- A `lager.LogLevel` (`DEBUG=0, INFO=1, ERROR=2, FATAL=3`). -/
inductive LogLevel where
  | debug
  | info
  | error
  | fatal
deriving DecidableEq

/-- A `lager.LogFormat` record, the shape both matcher variants alias as their
entry type.  The struct itself lives in the lager package outside `src/`; its
fields are taken from their uses in `src/` and the record shape in the spec.
The unserialized `time`/`Error` fields are not inspected by any matcher code
and are omitted. -/
structure LogFormat where
  timestamp : String
  source : String
  message : String
  logLevel : LogLevel
  data : LogData
deriving DecidableEq

/-- One JSON document in the actual source, as seen by `json.Decoder`: either
a record that decodes into a `LogFormat`, or a structurally malformed record
on which `Decode` reports the given error. -/
inductive RawRec where
  | wellFormed (e : LogFormat)
  | malformed (msg : String)
deriving DecidableEq

/-- Whether a raw record is the malformed kind. -/
def RawRec.isMalformed : RawRec → Bool
  | .wellFormed _ => false
  | .malformed _ => true

/-- The decode loop shared by both `Match` variants: `decoder.Decode` until
`io.EOF` (clean end of input) or the first malformed record (hard error). -/
def decodeAll : List RawRec → Except String (List LogFormat)
  | [] => .ok []
  | .wellFormed e :: rest =>
    match decodeAll rest with
    | .ok es => .ok (e :: es)
    | .error msg => .error msg
  | .malformed msg :: _ => .error msg

/-- The entries of a raw stream that decode, in order. -/
def okEntries (c : List RawRec) : List LogFormat :=
  c.filterMap fun r =>
    match r with
    | .wellFormed e => some e
    | .malformed _ => none

/-- A dynamically typed Go value passed to `Match` as the actual source: its
type name, which of the three accepted interfaces its type implements, and the
serialized records it holds (for a reader, the records still unread). -/
structure GoValue where
  typeName : String
  isBufferProvider : Bool
  isContentsProvider : Bool
  isReader : Bool
  contents : List RawRec
deriving DecidableEq

namespace Glager

/-- Builder options of the newer variant.  The Go `option` type
(`func(*logEntry)`) is unexported, so callers can only obtain values built by
`Message`, `Action`, `Source` and `Data`; an inductive type is therefore a
faithful model of the option values reachable through the public API. -/
inductive EntryOption where
  | message (msg : String)
  | source (src : String)
  | data (kv : List JVal)
deriving DecidableEq

/-- Option setting the expected message. -/
def Message (msg : String) : EntryOption := .message msg

/-- Alias of `Message`. -/
def Action (action : String) : EntryOption := Message action

/-- Option setting the expected source. -/
def Source (src : String) : EntryOption := .source src

/-- Option setting data key/value constraints (newer variant: variadic
`interface\x7b\x7d` arguments). -/
def Data (kv : List JVal) : EntryOption := .data kv

/-- Odd-length argument lists are padded with a trailing empty string. -/
def padKV (kv : List JVal) : List JVal :=
  if kv.length % 2 = 1 then kv ++ [.str ""] else kv

/-- Consecutive key/value pairs of the (even-length) padded argument list,
mirroring the `i += 2` loop. -/
def toPairs : List JVal → List (JVal × JVal)
  | k :: v :: rest => (k, v) :: toPairs rest
  | _ => []

/-- Panic message raised on a non-string data key
(`Invalid type for data key. Want string. Got %T:%v.`). -/
def invalidKeyMsg (k : JVal) : String :=
  "Invalid type for data key. Want string. Got " ++ goTypeName k ++ ":" ++ goValueString k ++ "."

/-- The body of the `Data` option: set each pair into the entry's data map,
panicking (modelled as `Except.error`) at the first non-string key. -/
def setPairs : List (JVal × JVal) → LogData → Except String LogData
  | [], m => .ok m
  | (k, v) :: rest, m =>
    match k with
    | .str s => setPairs rest (mapInsert m s v)
    | _ => .error (invalidKeyMsg k)

/-- Apply one option to an entry being built.  A Go panic escaping the option
is modelled as an `Except.error` result. -/
def applyOption (o : EntryOption) (e : LogFormat) : Except String LogFormat :=
  match o with
  | .message msg => .ok { e with message := msg }
  | .source src => .ok { e with source := src }
  | .data kv =>
    match setPairs (toPairs (padKV kv)) e.data with
    | .ok d => .ok { e with data := d }
    | .error msg => .error msg

/-- Apply options in order, stopping at the first panic. -/
def applyOptions : List EntryOption → LogFormat → Except String LogFormat
  | [], e => .ok e
  | o :: rest, e =>
    match applyOption o e with
    | .ok e2 => applyOptions rest e2
    | .error msg => .error msg

/-- Seed an entry with the given level and empty data, then apply options. -/
def Entry (logLevel : LogLevel) (options : List EntryOption) : Except String LogFormat :=
  applyOptions options
    { timestamp := "", source := "", message := "", logLevel := logLevel, data := [] }

/-- INFO entry builder. -/
def Info (options : List EntryOption) : Except String LogFormat :=
  Entry .info options

/-- DEBUG entry builder. -/
def Debug (options : List EntryOption) : Except String LogFormat :=
  Entry .debug options

/-- The `var AnyErr error = nil` convenience value (a nil error). -/
def AnyErr : Option String := none

/-- ERROR entry builder: a non-nil error appends a `Data("error", err.Error())`
option after the caller-supplied ones; a nil error appends nothing. -/
def Error (err : Option String) (options : List EntryOption) : Except String LogFormat :=
  Entry .error
    (match err with
     | some msg => options ++ [Data [.str "error", .str msg]]
     | none => options)

/-- FATAL entry builder, same error handling as `Error`. -/
def Fatal (err : Option String) (options : List EntryOption) : Except String LogFormat :=
  Entry .fatal
    (match err with
     | some msg => options ++ [Data [.str "error", .str msg]]
     | none => options)

/-- Data containment of the newer variant: every expected key must be present
in the actual data with a value whose `json.Marshal` form equals the expected
value's.  (Serialization of a decoded value cannot fail in this model, so the
error return of the Go function is always nil.) -/
def dataContains (actual expected : LogData) : Bool :=
  expected.all fun kv =>
    match mapLookup actual kv.1 with
    | none => false
    | some w => decide (jserialize w = jserialize kv.2)

/-- Per-entry containment of the newer variant (`logEntry.contains`). -/
def entryContains (actual expected : LogFormat) : Bool :=
  if expected.source ≠ "" ∧ actual.source ≠ expected.source then false
  else if expected.message ≠ "" ∧ actual.message ≠ expected.message then false
  else if actual.logLevel ≠ expected.logLevel then false
  else dataContains actual.data expected.data

/-- Index of the first actual entry containing the expected entry
(`logEntries.indexOf`; `none` models the `(0, false)` return). -/
def indexOf (entries : List LogFormat) (entry : LogFormat) : Option Nat :=
  match entries with
  | [] => none
  | a :: rest =>
    if entryContains a entry then some 0
    else (indexOf rest entry).map (· + 1)

/-- The matching loop of `Match`: for each expected entry in order, find the
first containing actual entry at or after the cursor and drop through it
(`actualEntries = actualEntries[i+1:]`). -/
def matchEntries : List LogFormat → List LogFormat → Bool
  | [], _ => true
  | e :: rest, actual =>
    match indexOf actual e with
    | none => false
    | some i => matchEntries rest (actual.drop (i + 1))

/-- Usage-error message of the newer variant's `Match`; `format.Object`
renders the offending value's type. -/
def usageMsg (typeName : String) : String :=
  "ContainSequence must be passed an io.Reader, glager.ContentsProvider, or gbytes.BufferProvider. Got:\n"
    ++ typeName

/-- Decode the source then run the matching loop. -/
def runMatch (expected : List LogFormat) (contents : List RawRec) : Except String Bool :=
  match decodeAll contents with
  | .error msg => .error msg
  | .ok actual => .ok (matchEntries expected actual)

/-- The newer variant's `logMatcher.Match`: type-switch on the actual value
(`gbytes.BufferProvider`, then `ContentsProvider`, then `io.Reader`, else a
usage error), then decode and scan. -/
def Match (expected : List LogFormat) (x : GoValue) : Except String Bool :=
  if x.isBufferProvider then runMatch expected x.contents
  else if x.isContentsProvider then runMatch expected x.contents
  else if x.isReader then runMatch expected x.contents
  else .error (usageMsg x.typeName)

/-- Records remaining in a stream after the decode loop ran over it: a clean
decode consumes everything, a malformed record stops the decoder there. -/
def dropThroughMalformed : List RawRec → List RawRec
  | [] => []
  | .wellFormed _ :: rest => dropThroughMalformed rest
  | .malformed _ :: rest => rest

/-- `Match` together with its effect on the source's state: the buffer arms
wrap a fresh `bytes.Reader` around the retained contents and leave the source
unchanged, whereas the reader arm consumes the stream. -/
def MatchStep (expected : List LogFormat) (x : GoValue) : Except String Bool × GoValue :=
  if x.isBufferProvider then (runMatch expected x.contents, x)
  else if x.isContentsProvider then (runMatch expected x.contents, x)
  else if x.isReader then
    (runMatch expected x.contents, { x with contents := dropThroughMalformed x.contents })
  else (.error (usageMsg x.typeName), x)

/-- Specification-side predicate, following the spec's words: the expected
entries occur in the actual sequence as an order-preserving subsequence, each
matched under per-entry containment, no actual entry used twice. -/
inductive SubseqMatch : List LogFormat → List LogFormat → Prop where
  | nil (actual : List LogFormat) : SubseqMatch [] actual
  | here {e a : LogFormat} {es rest : List LogFormat} :
      entryContains a e = true → SubseqMatch es rest → SubseqMatch (e :: es) (a :: rest)
  | there {e a : LogFormat} {es rest : List LogFormat} :
      SubseqMatch (e :: es) rest → SubseqMatch (e :: es) (a :: rest)

/-- Whether every key position of the padded argument list holds a string
(the condition under which the `Data` option cannot panic). -/
def goodKeys (kv : List JVal) : Bool :=
  (toPairs (padKV kv)).all fun p =>
    match p.1 with
    | .str _ => true
    | _ => false

/-- Value of the last pair in the list whose key is the string `s`. -/
def lastVal : List (JVal × JVal) → String → Option JVal
  | [], _ => none
  | (k, v) :: rest, s =>
    match lastVal rest s with
    | some w => some w
    | none => if k = JVal.str s then some v else none

/-- First non-string key of the pair list — the one `Data` panics on. -/
def firstBadKey : List (JVal × JVal) → Option JVal
  | [] => none
  | (k, _) :: rest =>
    match k with
    | .str _ => firstBadKey rest
    | _ => some k

/-- String keys an option can write into the entry's data map. -/
def optionKeys : EntryOption → List String
  | .data kv =>
    (toPairs (padKV kv)).filterMap fun p =>
      match p.1 with
      | .str s => some s
      | _ => none
  | _ => []

end Glager

namespace Legacy

/-- Builder options of the legacy variant (`src/glager.go`); its `Data` takes
string keys and values only. -/
inductive EntryOption where
  | message (msg : String)
  | source (src : String)
  | data (kv : List String)
deriving DecidableEq

/-- Odd-length argument lists are padded with a trailing empty string. -/
def padKV (kv : List String) : List String :=
  if kv.length % 2 = 1 then kv ++ [""] else kv

/-- Consecutive key/value pairs of the padded argument list. -/
def toPairs : List String → List (String × String)
  | k :: v :: rest => (k, v) :: toPairs rest
  | _ => []

/-- Apply one legacy option (legacy options are total: string-typed `Data`
cannot panic). -/
def applyOption (o : EntryOption) (e : LogFormat) : LogFormat :=
  match o with
  | .message msg => { e with message := msg }
  | .source src => { e with source := src }
  | .data kv =>
    { e with data := (toPairs (padKV kv)).foldl (fun m p => mapInsert m p.1 (.str p.2)) e.data }

/-- Seed an entry with the given level and empty data, then apply options. -/
def Entry (logLevel : LogLevel) (options : List EntryOption) : LogFormat :=
  options.foldl (fun e o => applyOption o e)
    { timestamp := "", source := "", message := "", logLevel := logLevel, data := [] }

/-- Legacy INFO builder. -/
def Info (options : List EntryOption) : LogFormat := Entry .info options

/-- Legacy DEBUG builder. -/
def Debug (options : List EntryOption) : LogFormat := Entry .debug options

/-- Go panic message of a method call on a nil error interface. -/
def nilDerefMsg : String :=
  "runtime error: invalid memory address or nil pointer dereference"

/-- Legacy ERROR builder: `glager.go` line 28 calls `err.Error()` with no nil
check, so a nil error panics; the panic is modelled as an `Except.error`. -/
def Error (err : Option String) (options : List EntryOption) : Except String LogFormat :=
  match err with
  | none => .error nilDerefMsg
  | some msg => .ok (Entry .error (options ++ [.data ["error", msg]]))

/-- Legacy FATAL builder (takes no error argument). -/
def Fatal (options : List EntryOption) : LogFormat := Entry .fatal options

/-- Legacy data containment: Go interface equality (`v != actualValue`) on
decoded values, modelled as structural equality. -/
def dataContains (actual expected : LogData) : Bool :=
  expected.all fun kv =>
    match mapLookup actual kv.1 with
    | none => false
    | some w => decide (kv.2 = w)

/-- Legacy per-entry containment (`LogEntry.contains`): note the extra
timestamp comparison absent from the newer variant. -/
def contains (actual expected : LogFormat) : Bool :=
  if expected.source ≠ "" ∧ actual.source ≠ expected.source then false
  else if expected.message ≠ "" ∧ actual.message ≠ expected.message then false
  else if actual.logLevel ≠ expected.logLevel then false
  else if expected.timestamp ≠ "" ∧ actual.timestamp ≠ expected.timestamp then false
  else dataContains actual.data expected.data

/-- Legacy `LogEntries.indexOf`. -/
def indexOf (entries : List LogFormat) (entry : LogFormat) : Option Nat :=
  match entries with
  | [] => none
  | a :: rest =>
    if contains a entry then some 0
    else (indexOf rest entry).map (· + 1)

/-- Legacy matching loop. -/
def matchEntries : List LogFormat → List LogFormat → Bool
  | [], _ => true
  | e :: rest, actual =>
    match indexOf actual e with
    | none => false
    | some i => matchEntries rest (actual.drop (i + 1))

/-- Legacy usage-error message. -/
def usageMsg (typeName : String) : String :=
  "Contains must be passed an io.Reader. Got:\n" ++ typeName

/-- Legacy `logMatcher.Match`: a single `io.Reader` type assertion; any value
whose type does not implement `io.Reader` is a usage error even when it
implements one of the buffer interfaces. -/
def Match (expected : List LogFormat) (x : GoValue) : Except String Bool :=
  if x.isReader then
    match decodeAll x.contents with
    | .error msg => .error msg
    | .ok actual => .ok (matchEntries expected actual)
  else .error (usageMsg x.typeName)

end Legacy

namespace Lager

/-- Opaque handle to a registered sink (sink behaviour is a collaborator
outside the modelled core). -/
abbrev Sink := Nat

/-- The lager `logger` struct (`src/unnamed/part_000`). -/
structure Logger where
  component : String
  task : String
  sinks : List Sink
  sessionID : String
  nextSession : Nat
  data : LogData
deriving DecidableEq

/-- Modulus of the `uint32` session counter. -/
def uint32Lim : Nat := 2 ^ 32

/-- `lager.NewLogger`. -/
def NewLogger (component : String) : Logger :=
  { component := component, task := component, sinks := [], sessionID := "",
    nextSession := 0, data := [] }

/-- Copy the bindings of `src` over `dst`, later bindings overwriting. -/
def copyInto (dst src : LogData) : LogData :=
  src.foldl (fun m kv => mapInsert m kv.1 kv.2) dst

/-- `logger.baseData`: fresh map, parent data first, then the given data maps
in argument order, then the `session` key when a session id is set. -/
def baseData (l : Logger) (givenData : List LogData) : LogData :=
  let d := givenData.foldl (fun m arg => copyInto m arg) (copyInto [] l.data)
  if l.sessionID ≠ "" then mapInsert d "session" (.str l.sessionID) else d

/-- `logger.Session`: atomically bump the parent's counter, derive the child's
session id from the parent's id and the fresh segment.  Returns the child
together with the parent after the counter bump (the Go code mutates the
parent in place through `atomic.AddUint32`). -/
def Session (l : Logger) (task : String) (data : List LogData) : Logger × Logger :=
  let sid := (l.nextSession + 1) % uint32Lim
  let sessionIDstr :=
    if l.sessionID ≠ "" then l.sessionID ++ "." ++ toString sid else toString sid
  ({ component := l.component
     task := l.task ++ "." ++ task
     sinks := l.sinks
     sessionID := sessionIDstr
     nextSession := 0
     data := baseData l data },
   { l with nextSession := sid })

/-- `logger.WithData` (new struct literal, so the child's counter restarts). -/
def WithData (l : Logger) (data : LogData) : Logger :=
  { component := l.component, task := l.task, sinks := l.sinks,
    sessionID := l.sessionID, nextSession := 0, data := baseData l [data] }

end Lager

theorem mapLookup_mapInsert (m : LogData) (k s : String) (v : JVal) :
    mapLookup (mapInsert m k v) s = if k = s then some v else mapLookup m s := by
  induction m with
  | nil => simp [mapInsert, mapLookup]
  | cons kv rest ih =>
    obtain ⟨k2, v2⟩ := kv
    by_cases h : k2 = k
    · subst h
      by_cases h2 : k2 = s <;> simp [mapInsert, mapLookup, h2]
    · simp only [mapInsert, if_neg h, mapLookup]
      by_cases h2 : k2 = s
      · have h3 : ¬ k = s := fun hk => h (h2.trans hk.symm)
        simp [h2, h3]
      · simp [h2, ih]

theorem Glager.dataContains_iff (a : LogData) :
    ∀ ed : LogData, uniqueKeys ed = true →
      (Glager.dataContains a ed = true ↔
        ∀ k v, mapLookup ed k = some v →
          ∃ w, mapLookup a k = some w ∧ jserialize w = jserialize v) := by
  intro ed
  induction ed with
  | nil => simp [Glager.dataContains, mapLookup]
  | cons kv rest ih =>
    obtain ⟨k0, v0⟩ := kv
    intro hu
    simp only [uniqueKeys, Bool.and_eq_true, decide_eq_true_eq] at hu
    obtain ⟨hu1, hu2⟩ := hu
    have ihr := ih hu2
    constructor
    · intro h k v hkv
      simp only [Glager.dataContains, List.all_cons, Bool.and_eq_true] at h
      obtain ⟨hhead, hrest⟩ := h
      simp only [mapLookup] at hkv
      by_cases hk : k0 = k
      · subst hk
        rw [if_pos rfl] at hkv
        cases hkv
        revert hhead
        cases hw : mapLookup a k0 with
        | none => simp
        | some w =>
          intro hhead
          exact ⟨w, rfl, by simpa using hhead⟩
      · rw [if_neg hk] at hkv
        exact (ihr.mp hrest) k v hkv
    · intro h
      simp only [Glager.dataContains, List.all_cons, Bool.and_eq_true]
      constructor
      · obtain ⟨w, hw, hser⟩ := h k0 v0 (by simp [mapLookup])
        simp [Glager.dataContains, hw, hser]
      · refine (ihr.mpr ?_)
        intro k v hkv
        refine h k v ?_
        have hk : ¬ k0 = k := by
          intro hk0
          subst hk0
          rw [hu1] at hkv
          exact Option.noConfusion hkv
        simp [mapLookup, hk, hkv]

/-- C2: per-entry containment of the matcher holds exactly when the expected
source and message, where non-empty, equal the actual ones, the levels are
exactly equal, and every expected data key is present in the actual data with
a value whose canonical serialization equals the expected value's; extra
actual keys impose no constraint. -/
theorem Glager.entryContains_iff (a e : LogFormat) (hu : uniqueKeys e.data = true) :
    Glager.entryContains a e = true ↔
      ((e.source ≠ "" → a.source = e.source) ∧
       (e.message ≠ "" → a.message = e.message) ∧
       a.logLevel = e.logLevel ∧
       (∀ k v, mapLookup e.data k = some v →
          ∃ w, mapLookup a.data k = some w ∧ jserialize w = jserialize v)) := by
  unfold Glager.entryContains
  by_cases h1 : e.source ≠ "" ∧ a.source ≠ e.source
  · simp only [if_pos h1]
    constructor
    · intro h
      exact absurd h (by simp)
    · intro h
      exact absurd (h.1 h1.1) h1.2
  · rw [if_neg h1]
    by_cases h2 : e.message ≠ "" ∧ a.message ≠ e.message
    · simp only [if_pos h2]
      constructor
      · intro h
        exact absurd h (by simp)
      · intro h
        exact absurd (h.2.1 h2.1) h2.2
    · rw [if_neg h2]
      by_cases h3 : a.logLevel ≠ e.logLevel
      · simp only [if_pos h3]
        constructor
        · intro h
          exact absurd h (by simp)
        · intro h
          exact absurd h.2.2.1 h3
      · rw [if_neg h3]
        push_neg at h1 h2 h3
        rw [Glager.dataContains_iff a.data e.data hu]
        constructor
        · intro h
          exact ⟨h1, h2, h3, h⟩
        · intro h
          exact h.2.2.2

/-- C2 witness. -/
theorem Glager.entryContains_iff_witness :
    Glager.entryContains
        { timestamp := "9", source := "logger", message := "logger.action", logLevel := .info,
          data := [("event", .str "starting"), ("task", .str "t1")] }
        { timestamp := "", source := "", message := "", logLevel := .info,
          data := [("event", .str "starting")] } = true :=
  (Glager.entryContains_iff _ _ (by decide)).mpr
    (by
      refine ⟨by simp, by simp, rfl, ?_⟩
      intro k v hkv
      simp only [mapLookup] at hkv
      by_cases hk : "event" = k
      · subst hk
        rw [if_pos rfl] at hkv
        cases hkv
        exact ⟨.str "starting", by simp [mapLookup], rfl⟩
      · rw [if_neg hk] at hkv
        simp [mapLookup] at hkv)

/-- C7 (amended): in the newer matcher variant the per-entry containment test
never reads either record's timestamp; in the legacy variant the test is
timestamp-independent only when the expectation's timestamp is empty (true of
every builder-produced expectation), since `src/glager.go` compares a
non-empty expected timestamp for equality. -/
theorem entryContains_timestamp_independent (a e : LogFormat) (t1 t2 : String)
    (hleg : e.timestamp = "") :
    (Glager.entryContains { a with timestamp := t1 } { e with timestamp := t2 } =
       Glager.entryContains a e) ∧
    (Legacy.contains { a with timestamp := t1 } e = Legacy.contains a e) := by
  constructor
  · simp [Glager.entryContains]
  · simp [Legacy.contains, hleg]

/-- C7 witness. -/
theorem entryContains_timestamp_independent_witness :
    (Glager.entryContains
        { timestamp := "5", source := "s", message := "m", logLevel := .info, data := [] }
        { timestamp := "7", source := "", message := "", logLevel := .info, data := [] } =
      Glager.entryContains
        { timestamp := "1", source := "s", message := "m", logLevel := .info, data := [] }
        { timestamp := "", source := "", message := "", logLevel := .info, data := [] }) ∧
    (Legacy.contains
        { timestamp := "5", source := "s", message := "m", logLevel := .info, data := [] }
        { timestamp := "", source := "", message := "", logLevel := .info, data := [] } =
      Legacy.contains
        { timestamp := "1", source := "s", message := "m", logLevel := .info, data := [] }
        { timestamp := "", source := "", message := "", logLevel := .info, data := [] }) :=
  entryContains_timestamp_independent
    { timestamp := "1", source := "s", message := "m", logLevel := .info, data := [] }
    { timestamp := "", source := "", message := "", logLevel := .info, data := [] }
    "5" "7" rfl

/-- C7 counterexample: in the legacy variant the containment result does
depend on timestamps — two actual records identical but for their timestamp
compare differently against an expectation carrying a timestamp. -/
theorem legacy_contains_timestamp_dependent :
    Legacy.contains
        { timestamp := "1", source := "", message := "", logLevel := .info, data := [] }
        { timestamp := "1", source := "", message := "", logLevel := .info, data := [] } = true ∧
    Legacy.contains
        { timestamp := "2", source := "", message := "", logLevel := .info, data := [] }
        { timestamp := "1", source := "", message := "", logLevel := .info, data := [] } = false := by
  exact ⟨by decide, by decide⟩

/-- C4 (amended): in the newer matcher variant, a value implementing any of
`gbytes.BufferProvider`, `glager.ContentsProvider` or `io.Reader` is accepted
and the match proceeds to decode-and-scan over its contents, while any other
value yields a hard usage error naming the unsupported type — an error value,
never a boolean match result.  (The legacy variant accepts only `io.Reader`.) -/
theorem match_input_types (lm : List LogFormat) (x : GoValue) :
    ((x.isBufferProvider || x.isContentsProvider || x.isReader) = true →
        Glager.Match lm x = Glager.runMatch lm x.contents) ∧
    ((x.isBufferProvider || x.isContentsProvider || x.isReader) = false →
        Glager.Match lm x = .error (Glager.usageMsg x.typeName) ∧
          ∀ b, Glager.Match lm x ≠ .ok b) := by
  rcases x with ⟨t, b1, b2, b3, c⟩
  cases b1 <;> cases b2 <;> cases b3 <;> simp [Glager.Match]

/-- C4 witness. -/
theorem match_input_types_witness :
    Glager.Match []
        { typeName := "*gbytes.Buffer", isBufferProvider := false,
          isContentsProvider := true, isReader := true, contents := [] } = .ok true ∧
    Glager.Match []
        { typeName := "glager.logEntry", isBufferProvider := false,
          isContentsProvider := false, isReader := false, contents := [] } =
      .error (Glager.usageMsg "glager.logEntry") :=
  ⟨by
    rw [(match_input_types []
      { typeName := "*gbytes.Buffer", isBufferProvider := false,
        isContentsProvider := true, isReader := true, contents := [] }).1 rfl]
    rfl,
   ((match_input_types []
      { typeName := "glager.logEntry", isBufferProvider := false,
        isContentsProvider := false, isReader := false, contents := [] }).2 rfl).1⟩

/-- C4 counterexample: the legacy `Match` in `src/glager.go` performs a single
`io.Reader` type assertion, so a value exposing only a buffered-contents
accessor (such as `*lagertest.TestSink`) is rejected with a usage error even
though the claim says any of the three interfaces is accepted. -/
theorem legacy_match_rejects_buffer_provider :
    Legacy.Match []
        { typeName := "*lagertest.TestSink", isBufferProvider := true,
          isContentsProvider := false, isReader := false, contents := [] } =
      .error ("Contains must be passed an io.Reader. Got:\n*lagertest.TestSink") := by
  rfl

/-- C6: matching against a buffer-typed source is idempotent — the buffer arms
of `Match` wrap the retained contents in a fresh reader, leave the source
unchanged, and a second evaluation returns the same result as the first. -/
theorem match_buffer_idempotent (lm : List LogFormat) (x : GoValue)
    (h : (x.isBufferProvider || x.isContentsProvider) = true) :
    (Glager.MatchStep lm x).2 = x ∧
      (Glager.MatchStep lm ((Glager.MatchStep lm x).2)).1 = (Glager.MatchStep lm x).1 := by
  rcases x with ⟨t, b1, b2, b3, c⟩
  cases b1 <;> cases b2 <;> simp [Glager.MatchStep] at h ⊢

/-- C6 witness. -/
theorem match_buffer_idempotent_witness :
    (Glager.MatchStep []
        { typeName := "*gbytes.Buffer", isBufferProvider := false,
          isContentsProvider := true, isReader := true,
          contents := [.wellFormed
            { timestamp := "1", source := "s", message := "m", logLevel := .info,
              data := [] }] }).2 =
      { typeName := "*gbytes.Buffer", isBufferProvider := false,
        isContentsProvider := true, isReader := true,
        contents := [.wellFormed
          { timestamp := "1", source := "s", message := "m", logLevel := .info,
            data := [] }] } ∧
      (Glager.MatchStep []
          ((Glager.MatchStep []
              { typeName := "*gbytes.Buffer", isBufferProvider := false,
                isContentsProvider := true, isReader := true,
                contents := [.wellFormed
                  { timestamp := "1", source := "s", message := "m", logLevel := .info,
                    data := [] }] }).2)).1 =
        (Glager.MatchStep []
            { typeName := "*gbytes.Buffer", isBufferProvider := false,
              isContentsProvider := true, isReader := true,
              contents := [.wellFormed
                { timestamp := "1", source := "s", message := "m", logLevel := .info,
                  data := [] }] }).1 :=
  match_buffer_idempotent [] _ rfl

theorem Glager.Match_eq_runMatch (E : List LogFormat) (x : GoValue)
    (hacc : (x.isBufferProvider || x.isContentsProvider || x.isReader) = true) :
    Glager.Match E x = Glager.runMatch E x.contents := by
  rcases x with ⟨t, b1, b2, b3, c⟩
  cases b1 <;> cases b2 <;> cases b3 <;> simp [Glager.Match] at hacc ⊢

theorem Glager.matchEntries_drop :
    ∀ (l : List LogFormat) (k : Nat) (E : List LogFormat),
      Glager.matchEntries E (l.drop k) = true → Glager.matchEntries E l = true := by
  intro l
  induction l with
  | nil =>
    intro k E h
    simpa using h
  | cons a rest ih =>
    intro k E h
    cases k with
    | zero => simpa using h
    | succ k2 =>
      rw [List.drop_succ_cons] at h
      have hrest : Glager.matchEntries E rest = true := ih k2 E h
      cases E with
      | nil => rfl
      | cons e es =>
        simp only [Glager.matchEntries] at hrest ⊢
        cases hidx : Glager.indexOf rest e with
        | none =>
          rw [hidx] at hrest
          exact absurd hrest (by simp)
        | some i =>
          rw [hidx] at hrest
          simp only [Glager.indexOf]
          by_cases hc : Glager.entryContains a e = true
          · rw [if_pos hc]
            simpa using ih (i + 1) es hrest
          · rw [if_neg hc, hidx]
            simpa using hrest

theorem Glager.matchEntries_iff_subseq (A : List LogFormat) :
    ∀ E : List LogFormat, Glager.matchEntries E A = true ↔ Glager.SubseqMatch E A := by
  induction A with
  | nil =>
    intro E
    cases E with
    | nil => exact ⟨fun _ => .nil [], fun _ => rfl⟩
    | cons e es =>
      constructor
      · intro h
        exact absurd h (by simp [Glager.matchEntries, Glager.indexOf])
      · intro h
        cases h
  | cons a rest ih =>
    intro E
    cases E with
    | nil => exact ⟨fun _ => .nil _, fun _ => rfl⟩
    | cons e es =>
      constructor
      · intro h
        simp only [Glager.matchEntries] at h
        by_cases hc : Glager.entryContains a e = true
        · have hidx : Glager.indexOf (a :: rest) e = some 0 := by
            simp [Glager.indexOf, hc]
          rw [hidx] at h
          exact .here hc ((ih es).mp (by simpa using h))
        · cases hj : Glager.indexOf rest e with
          | none =>
            have hidx : Glager.indexOf (a :: rest) e = none := by
              simp [Glager.indexOf, hc, hj]
            rw [hidx] at h
            exact absurd h (by simp)
          | some j =>
            have hidx : Glager.indexOf (a :: rest) e = some (j + 1) := by
              simp [Glager.indexOf, hc, hj]
            rw [hidx] at h
            have hr : Glager.matchEntries (e :: es) rest = true := by
              simp only [Glager.matchEntries, hj]
              simpa using h
            exact .there ((ih (e :: es)).mp hr)
      · intro h
        cases h with
        | here hc hsub =>
          have hidx : Glager.indexOf (a :: rest) e = some 0 := by
            simp [Glager.indexOf, hc]
          simp only [Glager.matchEntries, hidx]
          simpa using (ih es).mpr hsub
        | there hsub =>
          have hr : Glager.matchEntries (e :: es) rest = true := (ih (e :: es)).mpr hsub
          exact Glager.matchEntries_drop (a :: rest) 1 (e :: es) (by simpa using hr)

/-- C1: for a decoded actual sequence, `Match` returns true exactly when the
expected entries occur in it as an order-preserving subsequence under
per-entry containment (the cursor scan reuses no actual record), and returns
the boolean false — not an error — exactly when no such embedding exists. -/
theorem Match_iff_subsequence (E A : List LogFormat) (x : GoValue)
    (hacc : (x.isBufferProvider || x.isContentsProvider || x.isReader) = true)
    (hdec : decodeAll x.contents = .ok A) :
    (Glager.Match E x = .ok true ↔ Glager.SubseqMatch E A) ∧
    (Glager.Match E x = .ok false ↔ ¬ Glager.SubseqMatch E A) := by
  have hm : Glager.Match E x = .ok (Glager.matchEntries E A) := by
    rw [Glager.Match_eq_runMatch E x hacc]
    unfold Glager.runMatch
    rw [hdec]
  constructor
  · rw [hm]
    constructor
    · intro h
      exact (Glager.matchEntries_iff_subseq A E).mp (Except.ok.inj h)
    · intro h
      rw [(Glager.matchEntries_iff_subseq A E).mpr h]
  · rw [hm]
    constructor
    · intro h hsub
      have hb := (Glager.matchEntries_iff_subseq A E).mpr hsub
      rw [hb] at h
      exact absurd (Except.ok.inj h) (by simp)
    · intro h
      have hb : Glager.matchEntries E A = false := by
        cases hb2 : Glager.matchEntries E A
        · rfl
        · exact absurd ((Glager.matchEntries_iff_subseq A E).mp hb2) h
      rw [hb]

/-- C1 witness. -/
theorem Match_iff_subsequence_witness :
    Glager.SubseqMatch
      [ { timestamp := "", source := "", message := "", logLevel := .info,
          data := [("event", .str "starting")] } ]
      [ { timestamp := "1", source := "logger", message := "logger.action",
          logLevel := .debug, data := [] },
        { timestamp := "2", source := "logger", message := "logger.action",
          logLevel := .info,
          data := [("event", .str "starting"), ("task", .str "t")] } ] :=
  ((Match_iff_subsequence
      [ { timestamp := "", source := "", message := "", logLevel := .info,
          data := [("event", .str "starting")] } ]
      [ { timestamp := "1", source := "logger", message := "logger.action",
          logLevel := .debug, data := [] },
        { timestamp := "2", source := "logger", message := "logger.action",
          logLevel := .info,
          data := [("event", .str "starting"), ("task", .str "t")] } ]
      { typeName := "*bufio.Reader", isBufferProvider := false,
        isContentsProvider := false, isReader := true,
        contents :=
          [ .wellFormed
              { timestamp := "1", source := "logger", message := "logger.action",
                logLevel := .debug, data := [] },
            .wellFormed
              { timestamp := "2", source := "logger", message := "logger.action",
                logLevel := .info,
                data := [("event", .str "starting"), ("task", .str "t")] } ] }
      rfl rfl).1).mp rfl

theorem decodeAll_ok_of_no_malformed :
    ∀ c : List RawRec, c.any RawRec.isMalformed = false → decodeAll c = .ok (okEntries c) := by
  intro c
  induction c with
  | nil => intro _; rfl
  | cons r rest ih =>
    intro h
    cases r with
    | wellFormed e =>
      have h2 : rest.any RawRec.isMalformed = false := by
        simpa [RawRec.isMalformed] using h
      simp [decodeAll, ih h2, okEntries, List.filterMap_cons]
    | malformed msg =>
      simp [List.any_cons, RawRec.isMalformed] at h

theorem decodeAll_error_of_malformed :
    ∀ c : List RawRec, c.any RawRec.isMalformed = true → ∃ msg, decodeAll c = .error msg := by
  intro c
  induction c with
  | nil => intro h; simp at h
  | cons r rest ih =>
    intro h
    cases r with
    | malformed msg => exact ⟨msg, rfl⟩
    | wellFormed e =>
      have h2 : rest.any RawRec.isMalformed = true := by
        simpa [RawRec.isMalformed] using h
      obtain ⟨msg, hm⟩ := ih h2
      exact ⟨msg, by simp [decodeAll, hm]⟩

/-- C5: a structurally malformed record anywhere in an accepted source makes
`Match` abort with a hard decode error — never an `.ok` boolean, so no partial
match result; with no malformed record, decoding runs record by record to
clean end-of-input and `Match` returns the boolean scan result over all
decoded records. -/
theorem match_decode_error (E : List LogFormat) (x : GoValue)
    (hacc : (x.isBufferProvider || x.isContentsProvider || x.isReader) = true) :
    (x.contents.any RawRec.isMalformed = true →
       ∃ msg, Glager.Match E x = .error msg ∧ ∀ b, Glager.Match E x ≠ .ok b) ∧
    (x.contents.any RawRec.isMalformed = false →
       Glager.Match E x = .ok (Glager.matchEntries E (okEntries x.contents))) := by
  constructor
  · intro h
    obtain ⟨msg, hm⟩ := decodeAll_error_of_malformed x.contents h
    refine ⟨msg, ?_, ?_⟩
    · rw [Glager.Match_eq_runMatch E x hacc]
      unfold Glager.runMatch
      rw [hm]
    · intro b hb
      rw [Glager.Match_eq_runMatch E x hacc] at hb
      unfold Glager.runMatch at hb
      rw [hm] at hb
      exact Except.noConfusion hb
  · intro h
    rw [Glager.Match_eq_runMatch E x hacc]
    unfold Glager.runMatch
    rw [decodeAll_ok_of_no_malformed x.contents h]

/-- C5 witness. -/
theorem match_decode_error_witness :
    (Glager.Match []
        { typeName := "*gbytes.Buffer", isBufferProvider := false,
          isContentsProvider := true, isReader := false,
          contents := [.malformed "invalid character 'x'"] }).isOk = false ∧
    Glager.Match []
        { typeName := "*gbytes.Buffer", isBufferProvider := false,
          isContentsProvider := true, isReader := false,
          contents := [.wellFormed
            { timestamp := "1", source := "s", message := "m", logLevel := .info,
              data := [] }] } = .ok true := by
  constructor
  · obtain ⟨msg, hm, _⟩ :=
      (match_decode_error []
        { typeName := "*gbytes.Buffer", isBufferProvider := false,
          isContentsProvider := true, isReader := false,
          contents := [.malformed "invalid character 'x'"] } rfl).1 rfl
    rw [hm]
    rfl
  · exact
      (match_decode_error []
        { typeName := "*gbytes.Buffer", isBufferProvider := false,
          isContentsProvider := true, isReader := false,
          contents := [.wellFormed
            { timestamp := "1", source := "s", message := "m", logLevel := .info,
              data := [] }] } rfl).2 rfl

theorem Glager.setPairs_lookup_notMem :
    ∀ (ps : List (JVal × JVal)) (m d : LogData) (k : String),
      Glager.setPairs ps m = .ok d →
      (∀ p ∈ ps, p.1 ≠ JVal.str k) →
      mapLookup d k = mapLookup m k := by
  intro ps
  induction ps with
  | nil =>
    intro m d k h _
    simp only [Glager.setPairs] at h
    cases h
    rfl
  | cons p rest ih =>
    intro m d k h hk
    obtain ⟨pk, pv⟩ := p
    cases pk with
    | str s =>
      simp only [Glager.setPairs] at h
      have hs : ¬ s = k := by
        intro hsk
        exact (hk (JVal.str s, pv) (by simp)) (by rw [hsk])
      rw [ih (mapInsert m s pv) d k h (fun p hp => hk p (by simp [hp]))]
      rw [mapLookup_mapInsert, if_neg hs]
    | num n => simp [Glager.setPairs] at h
    | bool b => simp [Glager.setPairs] at h
    | null => simp [Glager.setPairs] at h

theorem Glager.applyOption_lookup_notKey (o : Glager.EntryOption) (e e2 : LogFormat)
    (k : String) (h : Glager.applyOption o e = .ok e2)
    (hk : k ∉ Glager.optionKeys o) :
    mapLookup e2.data k = mapLookup e.data k := by
  cases o with
  | message msg =>
    simp only [Glager.applyOption] at h
    cases h
    rfl
  | source src =>
    simp only [Glager.applyOption] at h
    cases h
    rfl
  | data kv =>
    simp only [Glager.applyOption] at h
    cases hsp : Glager.setPairs (Glager.toPairs (Glager.padKV kv)) e.data with
    | error msg => rw [hsp] at h; cases h
    | ok d =>
      rw [hsp] at h
      cases h
      refine Glager.setPairs_lookup_notMem _ e.data d k hsp ?_
      intro p hp hpk
      refine hk ?_
      simp only [Glager.optionKeys, List.mem_filterMap]
      exact ⟨p, hp, by rw [hpk]⟩

theorem Glager.applyOptions_lookup_notKey :
    ∀ (opts : List Glager.EntryOption) (e e2 : LogFormat) (k : String),
      Glager.applyOptions opts e = .ok e2 →
      (∀ o ∈ opts, k ∉ Glager.optionKeys o) →
      mapLookup e2.data k = mapLookup e.data k := by
  intro opts
  induction opts with
  | nil =>
    intro e e2 k h _
    simp only [Glager.applyOptions] at h
    cases h
    rfl
  | cons o rest ih =>
    intro e e2 k h hk
    simp only [Glager.applyOptions] at h
    cases hap : Glager.applyOption o e with
    | error msg => rw [hap] at h; cases h
    | ok e3 =>
      rw [hap] at h
      rw [ih e3 e2 k h (fun o2 ho2 => hk o2 (by simp [ho2]))]
      exact Glager.applyOption_lookup_notKey o e e3 k hap (hk o (by simp))

/-- C3 (amended): in the newer matcher variant, `Error` and `Fatal` with a nil
error append no implicit option — the call cannot crash on the nil error and,
when no caller option writes the key, the produced expectation carries no
`error` data key — while a non-nil error appends exactly one
`Data("error", err.Error())` option after all caller-supplied options.  (The
legacy `Error` in `src/glager.go` dereferences a nil error and crashes.) -/
theorem error_builder_nil (opts : List Glager.EntryOption) (m : String) (e : LogFormat)
    (hok : Glager.Error none opts = .ok e)
    (hnk : ∀ o ∈ opts, "error" ∉ Glager.optionKeys o) :
    Glager.Error none opts = Glager.Entry .error opts ∧
    Glager.Fatal none opts = Glager.Entry .fatal opts ∧
    Glager.Error (some m) opts =
      Glager.Entry .error (opts ++ [Glager.Data [.str "error", .str m]]) ∧
    Glager.Fatal (some m) opts =
      Glager.Entry .fatal (opts ++ [Glager.Data [.str "error", .str m]]) ∧
    mapLookup e.data "error" = none := by
  refine ⟨rfl, rfl, rfl, rfl, ?_⟩
  have hok2 : Glager.applyOptions opts
      { timestamp := "", source := "", message := "", logLevel := .error, data := [] } =
        .ok e := hok
  rw [Glager.applyOptions_lookup_notKey opts _ e "error" hok2 hnk]
  rfl

/-- C3 witness. -/
theorem error_builder_nil_witness :
    Glager.Error none [Glager.Source "x"] = Glager.Entry .error [Glager.Source "x"] ∧
    Glager.Fatal none [Glager.Source "x"] = Glager.Entry .fatal [Glager.Source "x"] ∧
    Glager.Error (some "boom") [Glager.Source "x"] =
      Glager.Entry .error
        ([Glager.Source "x"] ++ [Glager.Data [.str "error", .str "boom"]]) ∧
    Glager.Fatal (some "boom") [Glager.Source "x"] =
      Glager.Entry .fatal
        ([Glager.Source "x"] ++ [Glager.Data [.str "error", .str "boom"]]) ∧
    mapLookup
      (LogFormat.data
        { timestamp := "", source := "x", message := "", logLevel := .error, data := [] })
      "error" = none :=
  error_builder_nil [Glager.Source "x"] "boom"
    { timestamp := "", source := "x", message := "", logLevel := .error, data := [] }
    rfl (by decide)

/-- C3 counterexample: the legacy `Error` builder of `src/glager.go` calls
`err.Error()` with no nil check, so a nil error crashes the call instead of
producing an expectation. -/
theorem legacy_error_nil_crashes :
    Legacy.Error none [] = .error Legacy.nilDerefMsg := rfl

theorem Glager.setPairs_ok_of_goodKeys :
    ∀ (ps : List (JVal × JVal)) (m : LogData),
      (ps.all fun p =>
        match p.1 with
        | JVal.str _ => true
        | _ => false) = true →
      ∃ d, Glager.setPairs ps m = .ok d ∧
        ∀ s, mapLookup d s =
          (match Glager.lastVal ps s with
           | some w => some w
           | none => mapLookup m s) := by
  intro ps
  induction ps with
  | nil =>
    intro m _
    exact ⟨m, rfl, fun s => by simp [Glager.lastVal]⟩
  | cons p rest ih =>
    intro m hall
    obtain ⟨pk, pv⟩ := p
    cases pk with
    | str s0 =>
      have hall2 : (rest.all fun p =>
          match p.1 with
          | JVal.str _ => true
          | _ => false) = true := by
        simpa using hall
      obtain ⟨d, hd, hl⟩ := ih (mapInsert m s0 pv) hall2
      refine ⟨d, by simp [Glager.setPairs, hd], ?_⟩
      intro s
      rw [hl s]
      cases hlast : Glager.lastVal rest s with
      | some w => simp [Glager.lastVal, hlast]
      | none =>
        simp only [Glager.lastVal, hlast]
        rw [mapLookup_mapInsert]
        by_cases hs : s0 = s
        · subst hs
          simp
        · have hs2 : ¬ (JVal.str s0 = JVal.str s) := by simpa using hs
          simp [hs, hs2]
    | num n => simp at hall
    | bool b => simp at hall
    | null => simp at hall

theorem Glager.toPairs_append_last :
    ∀ (kv : List JVal) (x : JVal), kv.length % 2 = 1 →
      ∃ ps k, Glager.toPairs (kv ++ [x]) = ps ++ [(k, x)] ∧ kv.getLast? = some k
  | [], _, h => by simp at h
  | [k], x, _ => ⟨[], k, rfl, rfl⟩
  | k :: v :: rest, x, h => by
    have h2 : rest.length % 2 = 1 := by
      simp only [List.length_cons] at h
      omega
    obtain ⟨ps, k2, hps, hlast⟩ := Glager.toPairs_append_last rest x h2
    refine ⟨(k, v) :: ps, k2, ?_, ?_⟩
    · simp [Glager.toPairs, hps]
    · cases rest with
      | nil => simp at h2
      | cons r rtail =>
        rw [List.getLast?_cons_cons, List.getLast?_cons_cons]
        exact hlast

theorem Glager.lastVal_append_last :
    ∀ (ps : List (JVal × JVal)) (s : String) (w : JVal),
      Glager.lastVal (ps ++ [(JVal.str s, w)]) s = some w := by
  intro ps s w
  induction ps with
  | nil => simp [Glager.lastVal]
  | cons p rest ih =>
    obtain ⟨pk, pv⟩ := p
    simp [Glager.lastVal, ih]

/-- C8: the `Data` builder pads an odd-length argument list with a trailing
empty string instead of failing, so the final key maps to the empty string;
on the (padded) pairs, when every key position holds a string, the option
succeeds and sets each consecutive key/value pair into the expectation's data
map, the last pair for a key winning over earlier pairs and over any
pre-existing binding. -/
theorem data_builder (kv : List JVal) (e : LogFormat) (h : Glager.goodKeys kv = true) :
    ∃ d, Glager.applyOption (Glager.Data kv) e = .ok { e with data := d } ∧
      (∀ s, mapLookup d s =
        (match Glager.lastVal (Glager.toPairs (Glager.padKV kv)) s with
         | some w => some w
         | none => mapLookup e.data s)) ∧
      (kv.length % 2 = 1 → Glager.padKV kv = kv ++ [.str ""]) ∧
      (kv.length % 2 = 1 → ∀ s, kv.getLast? = some (.str s) →
        mapLookup d s = some (.str "")) := by
  obtain ⟨d, hd, hl⟩ :=
    Glager.setPairs_ok_of_goodKeys (Glager.toPairs (Glager.padKV kv)) e.data h
  refine ⟨d, ?_, hl, ?_, ?_⟩
  · simp [Glager.applyOption, Glager.Data, hd]
  · intro hodd
    simp [Glager.padKV, hodd]
  · intro hodd s hlastk
    have hpad : Glager.padKV kv = kv ++ [JVal.str ""] := by
      simp [Glager.padKV, hodd]
    obtain ⟨ps, k, hps, hlast2⟩ := Glager.toPairs_append_last kv (JVal.str "") hodd
    have hk : k = JVal.str s := Option.some.inj (hlast2.symm.trans hlastk)
    rw [hl s, hpad, hps, hk, Glager.lastVal_append_last]

/-- C8 witness. -/
theorem data_builder_witness :
    mapLookup [("a", JVal.num 1), ("k", JVal.str "")] "k" = some (JVal.str "") := by
  obtain ⟨d, hd, hl, hpad, hlast⟩ :=
    data_builder [.str "a", .num 1, .str "k"]
      { timestamp := "", source := "", message := "", logLevel := .info, data := [] }
      (by decide)
  have h2 := hd.symm.trans
    (rfl : Glager.applyOption (Glager.Data [.str "a", .num 1, .str "k"])
        { timestamp := "", source := "", message := "", logLevel := .info, data := [] } =
      .ok { timestamp := "", source := "", message := "", logLevel := .info,
            data := [("a", JVal.num 1), ("k", JVal.str "")] })
  have h3 : d = [("a", JVal.num 1), ("k", JVal.str "")] :=
    congrArg LogFormat.data (Except.ok.inj h2)
  rw [← h3]
  exact hlast rfl "k" (by decide)

theorem Glager.setPairs_error_of_firstBadKey :
    ∀ (ps : List (JVal × JVal)) (m : LogData) (v : JVal),
      Glager.firstBadKey ps = some v →
      Glager.setPairs ps m = .error (Glager.invalidKeyMsg v) := by
  intro ps
  induction ps with
  | nil =>
    intro m v h
    simp [Glager.firstBadKey] at h
  | cons p rest ih =>
    intro m v h
    obtain ⟨pk, pv⟩ := p
    cases pk with
    | str s =>
      simp only [Glager.firstBadKey] at h
      simp only [Glager.setPairs]
      exact ih _ v h
    | num n =>
      simp only [Glager.firstBadKey] at h
      cases h
      rfl
    | bool b =>
      simp only [Glager.firstBadKey] at h
      cases h
      rfl
    | null =>
      simp only [Glager.firstBadKey] at h
      cases h
      rfl

/-- C10: a non-string value in a key position of the newer variant's `Data`
builder makes applying the option panic with a message naming the offending
value's type and rendering — instead of returning normally or skipping the
pair — and the panic propagates out of each public builder
(`Entry`, `Info`, `Debug`, `Error`, `Fatal`). -/
theorem data_key_panic (kv : List JVal) (v : JVal) (e : LogFormat) (lvl : LogLevel)
    (err : Option String)
    (h : Glager.firstBadKey (Glager.toPairs (Glager.padKV kv)) = some v) :
    Glager.applyOption (Glager.Data kv) e = .error (Glager.invalidKeyMsg v) ∧
    Glager.Entry lvl [Glager.Data kv] = .error (Glager.invalidKeyMsg v) ∧
    Glager.Info [Glager.Data kv] = .error (Glager.invalidKeyMsg v) ∧
    Glager.Debug [Glager.Data kv] = .error (Glager.invalidKeyMsg v) ∧
    Glager.Error err [Glager.Data kv] = .error (Glager.invalidKeyMsg v) ∧
    Glager.Fatal err [Glager.Data kv] = .error (Glager.invalidKeyMsg v) := by
  have hap : ∀ e2 : LogFormat,
      Glager.applyOption (Glager.Data kv) e2 = .error (Glager.invalidKeyMsg v) := by
    intro e2
    simp [Glager.applyOption, Glager.Data,
      Glager.setPairs_error_of_firstBadKey (Glager.toPairs (Glager.padKV kv)) e2.data v h]
  have hopts : ∀ (l : LogLevel) (more : List Glager.EntryOption),
      Glager.Entry l (Glager.Data kv :: more) = .error (Glager.invalidKeyMsg v) := by
    intro l more
    unfold Glager.Entry
    simp only [Glager.applyOptions]
    rw [hap]
  refine ⟨hap e, hopts lvl [], hopts .info [], hopts .debug [], ?_, ?_⟩
  · cases err with
    | none => exact hopts .error []
    | some m => exact hopts .error [Glager.Data [.str "error", .str m]]
  · cases err with
    | none => exact hopts .fatal []
    | some m => exact hopts .fatal [Glager.Data [.str "error", .str m]]

/-- C10 witness. -/
theorem data_key_panic_witness :
    Glager.Info [Glager.Data [.num 42, .str "v"]] =
      .error (Glager.invalidKeyMsg (.num 42)) :=
  (data_key_panic [.num 42, .str "v"] (.num 42)
    { timestamp := "", source := "", message := "", logLevel := .info, data := [] }
    .info none rfl).2.2.1

/-- C9: two successive `Session` derivations from the same parent allocate
distinct, positive integer segments by bumping the parent's own `uint32`
counter (positivity under the side condition that the counter does not wrap);
each child's session identifier is the parent's identifier joined with "."
and the fresh segment when the parent's identifier is non-empty, and just the
segment otherwise; derivation changes nothing on the parent but the counter,
so the identifiers of parent and children are fixed at derivation time. -/
theorem session_numbering (l : Lager.Logger) (t1 t2 : String)
    (d1 d2 : List LogData) (h : l.nextSession + 2 < 2 ^ 32) :
    (l.nextSession + 1) % Lager.uint32Lim ≠ (l.nextSession + 2) % Lager.uint32Lim ∧
    0 < (l.nextSession + 1) % Lager.uint32Lim ∧
    0 < (l.nextSession + 2) % Lager.uint32Lim ∧
    (Lager.Session l t1 d1).1.sessionID =
      (if l.sessionID ≠ "" then
        l.sessionID ++ "." ++ toString ((l.nextSession + 1) % Lager.uint32Lim)
       else toString ((l.nextSession + 1) % Lager.uint32Lim)) ∧
    (Lager.Session (Lager.Session l t1 d1).2 t2 d2).1.sessionID =
      (if l.sessionID ≠ "" then
        l.sessionID ++ "." ++ toString ((l.nextSession + 2) % Lager.uint32Lim)
       else toString ((l.nextSession + 2) % Lager.uint32Lim)) ∧
    (Lager.Session l t1 d1).2 = { l with nextSession := (l.nextSession + 1) % Lager.uint32Lim } := by
  have hm1 : (l.nextSession + 1) % Lager.uint32Lim = l.nextSession + 1 := by
    simp only [Lager.uint32Lim]
    exact Nat.mod_eq_of_lt (by omega)
  have hm2 : (l.nextSession + 2) % Lager.uint32Lim = l.nextSession + 2 := by
    simp only [Lager.uint32Lim]
    exact Nat.mod_eq_of_lt (by omega)
  refine ⟨by rw [hm1, hm2]; omega, by rw [hm1]; omega, by rw [hm2]; omega, ?_, ?_, ?_⟩
  · simp [Lager.Session]
  · simp only [Lager.Session]
    rw [hm1]
  · simp [Lager.Session]

/-- C9 witness. -/
theorem session_numbering_witness :
    (Lager.Session (Lager.NewLogger "comp") "a" []).1.sessionID = "1" ∧
    (Lager.Session (Lager.Session (Lager.NewLogger "comp") "a" []).2 "b" []).1.sessionID = "2" := by
  have h := session_numbering (Lager.NewLogger "comp") "a" "b" [] []
    (by norm_num [Lager.NewLogger])
  exact ⟨h.2.2.2.1.trans (by decide), h.2.2.2.2.1.trans (by decide)⟩
